import Mathlib

set_option maxRecDepth 4000
set_option maxHeartbeats 2000000

/-! Byte-level primitives -/

/-- Big-endian 16-bit serialization (`DataView.setUint16`), truncating like JS. -/
def be16 (n : Nat) : List Nat := [(n / 256) % 256, n % 256]

/-- Big-endian 32-bit serialization (`DataView.setUint32`), truncating like JS. -/
def be32 (n : Nat) : List Nat :=
  [(n / 16777216) % 256, (n / 65536) % 256, (n / 256) % 256, n % 256]

/-- Big-endian 64-bit serialization, used by SHA-256 length padding. -/
def be64 (n : Nat) : List Nat :=
  [(n / 72057594037927936) % 256, (n / 281474976710656) % 256,
   (n / 1099511627776) % 256, (n / 4294967296) % 256,
   (n / 16777216) % 256, (n / 65536) % 256, (n / 256) % 256, n % 256]

/-! SHA-256 (FIPS 180-4), executable model of the platform digest primitive. -/

def m32 (x : Nat) : Nat := x % 4294967296

def rotr32 (x n : Nat) : Nat := ((x >>> n) ||| (x <<< (32 - n))) % 4294967296

def shaCh (e f g : Nat) : Nat := (e &&& f) ^^^ ((e ^^^ 4294967295) &&& g)

def shaMaj (a b c : Nat) : Nat := (a &&& b) ^^^ (a &&& c) ^^^ (b &&& c)

def bigSigma0 (x : Nat) : Nat := rotr32 x 2 ^^^ rotr32 x 13 ^^^ rotr32 x 22

def bigSigma1 (x : Nat) : Nat := rotr32 x 6 ^^^ rotr32 x 11 ^^^ rotr32 x 25

def smallSigma0 (x : Nat) : Nat := rotr32 x 7 ^^^ rotr32 x 18 ^^^ (x >>> 3)

def smallSigma1 (x : Nat) : Nat := rotr32 x 17 ^^^ rotr32 x 19 ^^^ (x >>> 10)

def sha256K : List Nat :=
  [1116352408, 1899447441, 3049323471, 3921009573, 961987163, 1508970993,
   2453635748, 2870763221, 3624381080, 310598401, 607225278, 1426881987,
   1925078388, 2162078206, 2614888103, 3248222580, 3835390401, 4022224774,
   264347078, 604807628, 770255983, 1249150122, 1555081692, 1996064986,
   2554220882, 2821834349, 2952996808, 3210313671, 3336571891, 3584528711,
   113926993, 338241895, 666307205, 773529912, 1294757372, 1396182291,
   1695183700, 1986661051, 2177026350, 2456956037, 2730485921, 2820302411,
   3259730800, 3345764771, 3516065817, 3600352804, 4094571909, 275423344,
   430227734, 506948616, 659060556, 883997877, 958139571, 1322822218,
   1537002063, 1747873779, 1955562222, 2024104815, 2227730452, 2361852424,
   2428436474, 2756734187, 3204031479, 3329325298]

structure Hash8 where
  a : Nat
  b : Nat
  c : Nat
  d : Nat
  e : Nat
  f : Nat
  g : Nat
  hh : Nat
  deriving Repr, DecidableEq

def sha256Init : Hash8 :=
  ⟨1779033703, 3144134277, 1013904242, 2773480762,
   1359893119, 2600822924, 528734635, 1541459225⟩

/-- SHA-256 length padding: append 0x80, zeros and the 64-bit bit length. -/
def sha256Pad (msg : List Nat) : List Nat :=
  msg ++ 128 :: List.replicate ((64 + 56 - ((msg.length + 1) % 64)) % 64) 0 ++ be64 (8 * msg.length)

/-- Group bytes into big-endian 32-bit words. -/
def bytesToWords : List Nat → List Nat
  | b0 :: b1 :: b2 :: b3 :: rest => (((b0 * 256 + b1) * 256 + b2) * 256 + b3) :: bytesToWords rest
  | _ => []

/-- Extend the 16-word message schedule by k additional words. -/
def extendSchedule (w : List Nat) : Nat → List Nat
  | 0 => w
  | k + 1 =>
    extendSchedule
      (w ++ [m32 (smallSigma1 (w.getD (w.length - 2) 0) + w.getD (w.length - 7) 0 +
                  smallSigma0 (w.getD (w.length - 15) 0) + w.getD (w.length - 16) 0)]) k

def sha256Round (st : Hash8) (kw : Nat × Nat) : Hash8 :=
  let t1 := m32 (st.hh + bigSigma1 st.e + shaCh st.e st.f st.g + kw.1 + kw.2)
  let t2 := m32 (bigSigma0 st.a + shaMaj st.a st.b st.c)
  ⟨m32 (t1 + t2), st.a, st.b, st.c, m32 (st.d + t1), st.e, st.f, st.g⟩

def sha256Compress (st : Hash8) (block : List Nat) : Hash8 :=
  let w := extendSchedule (bytesToWords block) 48
  let fin := (sha256K.zip w).foldl sha256Round st
  ⟨m32 (st.a + fin.a), m32 (st.b + fin.b), m32 (st.c + fin.c), m32 (st.d + fin.d),
   m32 (st.e + fin.e), m32 (st.f + fin.f), m32 (st.g + fin.g), m32 (st.hh + fin.hh)⟩

/-- Split a byte list into 64-byte blocks; the fuel is the number of blocks still allowed. -/
def toBlocksAux : Nat → List Nat → List (List Nat)
  | 0, _ => []
  | _, [] => []
  | fuel + 1, l => l.take 64 :: toBlocksAux fuel (l.drop 64)

/-- Split a byte list into 64-byte blocks. -/
def toBlocks (l : List Nat) : List (List Nat) := toBlocksAux l.length l

def wordBytes (w : Nat) : List Nat := [(w >>> 24) % 256, (w >>> 16) % 256, (w >>> 8) % 256, w % 256]

/-- SHA-256 digest of a byte list, as 32 raw bytes. -/
def sha256 (msg : List Nat) : List Nat :=
  let fin := (toBlocks (sha256Pad msg)).foldl sha256Compress sha256Init
  wordBytes fin.a ++ wordBytes fin.b ++ wordBytes fin.c ++ wordBytes fin.d ++
  wordBytes fin.e ++ wordBytes fin.f ++ wordBytes fin.g ++ wordBytes fin.hh

/-! Hex encoding -/

def hexDigitCh (n : Nat) : Char := if n < 10 then Char.ofNat (48 + n) else Char.ofNat (87 + n)

def byteHex (b : Nat) : List Char := [hexDigitCh ((b / 16) % 16), hexDigitCh (b % 16)]

/-- Lowercase hex rendering of a byte list. -/
def bytesToHex (bs : List Nat) : String := String.mk ((bs.map byteHex).flatten)

def hexDigitVal (c : Char) : Nat :=
  if 48 ≤ c.toNat ∧ c.toNat ≤ 57 then c.toNat - 48
  else if 97 ≤ c.toNat ∧ c.toNat ≤ 102 then c.toNat - 87
  else if 65 ≤ c.toNat ∧ c.toNat ≤ 70 then c.toNat - 55
  else 0

def hexPairs : List Char → List Nat
  | c0 :: c1 :: rest => (hexDigitVal c0 * 16 + hexDigitVal c1) :: hexPairs rest
  | _ => []

/-- Parse a hex string into bytes. -/
def hexToBytes (s : String) : List Nat := hexPairs s.data

/-! UTF-8 codec, model of TextEncoder / TextDecoder -/

def utf8EncodeChar (c : Char) : List Nat :=
  let v := c.toNat
  if v < 128 then [v]
  else if v < 2048 then [192 + v / 64, 128 + v % 64]
  else if v < 65536 then [224 + v / 4096, 128 + (v / 64) % 64, 128 + v % 64]
  else [240 + v / 262144, 128 + (v / 4096) % 64, 128 + (v / 64) % 64, 128 + v % 64]

def utf8Encode (s : String) : List Nat := (s.data.map utf8EncodeChar).flatten

def replCh : Char := Char.ofNat 65533

/-- UTF-8 decoder step function; the fuel bounds the number of decoded characters. -/
def utf8DecodeAux : Nat → List Nat → List Char
  | 0, _ => []
  | _, [] => []
  | fuel + 1, b :: rest =>
    if b < 128 then Char.ofNat b :: utf8DecodeAux fuel rest
    else if b < 194 then replCh :: utf8DecodeAux fuel rest
    else if b < 224 then
      match rest with
      | b1 :: rest1 =>
        if 128 ≤ b1 ∧ b1 < 192 then
          Char.ofNat ((b - 192) * 64 + (b1 - 128)) :: utf8DecodeAux fuel rest1
        else replCh :: utf8DecodeAux fuel rest
      | [] => [replCh]
    else if b < 240 then
      match rest with
      | b1 :: b2 :: rest2 =>
        if (128 ≤ b1 ∧ b1 < 192) ∧ (128 ≤ b2 ∧ b2 < 192) then
          let v := (b - 224) * 4096 + (b1 - 128) * 64 + (b2 - 128)
          if 2048 ≤ v ∧ ¬(55296 ≤ v ∧ v < 57344) then Char.ofNat v :: utf8DecodeAux fuel rest2
          else replCh :: utf8DecodeAux fuel rest
        else replCh :: utf8DecodeAux fuel rest
      | _ => replCh :: utf8DecodeAux fuel rest
    else if b < 245 then
      match rest with
      | b1 :: b2 :: b3 :: rest3 =>
        if (128 ≤ b1 ∧ b1 < 192) ∧ (128 ≤ b2 ∧ b2 < 192) ∧ (128 ≤ b3 ∧ b3 < 192) then
          let v := (b - 240) * 262144 + (b1 - 128) * 4096 + (b2 - 128) * 64 + (b3 - 128)
          if 65536 ≤ v ∧ v < 1114112 then Char.ofNat v :: utf8DecodeAux fuel rest3
          else replCh :: utf8DecodeAux fuel rest
        else replCh :: utf8DecodeAux fuel rest
      | _ => replCh :: utf8DecodeAux fuel rest
    else replCh :: utf8DecodeAux fuel rest

/-- UTF-8 decoder with replacement-character handling of invalid input. -/
def utf8Decode (bs : List Nat) : List Char := utf8DecodeAux bs.length bs


/-! crypto-utils embedding -/

inductive Algorithm where
  | aesGcm
  | chacha20poly1305
  deriving DecidableEq, Repr

inductive KDFKind where
  | argon2id
  deriving DecidableEq, Repr

inductive CryptoError where
  | badMagic
  | outOfBounds
  | wrongPasswordOrCorrupt
  | integrityFailure
  | unsupportedAlgorithm
  deriving DecidableEq, Repr

structure FileHeader where
  magic : List Nat
  version : Nat
  algorithm : Algorithm
  kdf : KDFKind
  kdfMemory : Nat
  kdfIterations : Nat
  kdfParallelism : Nat
  salt : List Nat
  chunkSize : Nat
  originalFilename : String
  originalSize : Nat
  totalChunks : Nat
  deriving DecidableEq, Repr

structure FileHeaderV2 extends FileHeader where
  originalHash : String
  deriving DecidableEq, Repr

def MAGIC_BYTES : List Nat := [83, 75, 84, 65]

def FORMAT_VERSION : Nat := 1

def CHUNK_SIZE : Nat := 4 * 1024 * 1024

def algorithmByte : Algorithm → Nat
  | .aesGcm => 0
  | .chacha20poly1305 => 1

/-- Model of Uint8Array.set for an in-range write. -/
def bufWrite (buf : List Nat) (off : Nat) (src : List Nat) : List Nat :=
  buf.take off ++ src ++ buf.drop (off + src.length)

/-- Embedding of deriveChunkNonce from crypto-utils: a zeroed 12-byte buffer receives the
first 8 master-nonce bytes and the big-endian chunk index at offset 8. -/
def deriveChunkNonce (masterNonce : List Nat) (chunkIndex : Nat) : List Nat :=
  bufWrite (bufWrite (List.replicate 12 0) 0 (masterNonce.take 8)) 8 (be32 chunkIndex)

/-- Embedding of deriveChunkKey from crypto-utils, with the WebCrypto key import and
export treated as identity on the raw 32 key bytes: the master key bytes and the info
string are written into a fresh buffer and hashed with SHA-256. -/
def deriveChunkKey (masterKeyBytes : List Nat) (chunkIndex : Nat) : List Nat :=
  let info := utf8Encode ("chunk-" ++ Nat.repr chunkIndex)
  let combined :=
    bufWrite (bufWrite (List.replicate (masterKeyBytes.length + info.length) 0) 0 masterKeyBytes)
      masterKeyBytes.length info
  sha256 combined

/-- Embedding of serializeHeader from crypto-utils; the sequential DataView writes at
cumulative offsets are rendered as concatenation, assuming the 4-byte magic and 32-byte
salt the caller supplies (an oversized Uint8Array.set source would throw in JS). -/
def serializeHeader (header : FileHeader) : List Nat :=
  let filenameBytes := utf8Encode header.originalFilename
  header.magic ++ be16 header.version ++ [algorithmByte header.algorithm] ++ [0] ++
  be32 header.kdfMemory ++ be32 header.kdfIterations ++ [header.kdfParallelism % 256] ++
  header.salt ++ be32 header.chunkSize ++ be32 header.originalSize ++ be32 header.totalChunks ++
  be16 filenameBytes.length ++ filenameBytes

def readU8 (d : List Nat) (off : Nat) : Except CryptoError Nat :=
  match d.drop off with
  | b :: _ => .ok b
  | [] => .error .outOfBounds

def readU16 (d : List Nat) (off : Nat) : Except CryptoError Nat :=
  match d.drop off with
  | b0 :: b1 :: _ => .ok (b0 * 256 + b1)
  | _ => .error .outOfBounds

def readU32 (d : List Nat) (off : Nat) : Except CryptoError Nat :=
  match d.drop off with
  | b0 :: b1 :: b2 :: b3 :: _ => .ok (((b0 * 256 + b1) * 256 + b2) * 256 + b3)
  | _ => .error .outOfBounds

def sliceBytes (d : List Nat) (a b : Nat) : List Nat := (d.drop a).take (b - a)

def magicMatches (d : List Nat) : Bool :=
  ((d.take 4).zip MAGIC_BYTES).all fun p => p.1 == p.2

/-- Embedding of deserializeHeader from crypto-utils: magic check first, then fixed-offset
DataView reads; a read past the end of the buffer raises a range error, and slices clamp
like Uint8Array.slice. -/
def deserializeHeader (data : List Nat) : Except CryptoError FileHeader := do
  let magic := sliceBytes data 0 4
  if ¬ magicMatches data then
    Except.error .badMagic
  else
    let version ← readU16 data 4
    let algoId ← readU8 data 6
    let _kdfId ← readU8 data 7
    let kdfMemory ← readU32 data 8
    let kdfIterations ← readU32 data 12
    let kdfParallelism ← readU8 data 16
    let salt := sliceBytes data 17 49
    let chunkSize ← readU32 data 49
    let originalSize ← readU32 data 53
    let totalChunks ← readU32 data 57
    let filenameLength ← readU16 data 61
    let filenameBytes := sliceBytes data 63 (63 + filenameLength)
    Except.ok ⟨magic, version, if algoId == 0 then .aesGcm else .chacha20poly1305, .argon2id,
      kdfMemory, kdfIterations, kdfParallelism, salt, chunkSize,
      String.mk (utf8Decode filenameBytes), originalSize, totalChunks⟩

/-- Embedding of getHeaderSize from crypto-utils: the fixed prefix is 63 bytes, and the
filename length is read at byte offset 56, exactly as the code does. -/
def getHeaderSize (data : List Nat) : Except CryptoError Nat := do
  let fixedSize := 4 + 2 + 1 + 1 + 4 + 4 + 1 + 32 + 4 + 4 + 4 + 2
  let filenameLength ← readU16 data 56
  Except.ok (fixedSize + filenameLength)

/-- Modelled from the spec: the external hash-wasm argon2id primitive, abstracted as a
deterministic function of password, salt and parameters with 32-byte output. -/
def deriveKeyArgon2Bytes (password : String) (salt : List Nat)
    (memory iterations parallelism : Nat) : List Nat :=
  sha256 (utf8Encode password ++ salt ++ be32 memory ++ be32 iterations ++ [parallelism % 256])

/-- Modelled from the spec: calculateHash of the v2 crypto-utils module, which is not
under src; the SHA-256 digest returned as 64 lowercase hex characters. -/
def calculateHash (data : List Nat) : String := bytesToHex (sha256 data)

/-- Modelled from the spec: keystream of the platform AEAD primitive behind the v2 chunk
codec, which is not under src; one 32-byte block per counter. -/
def keystream (alg : Algorithm) (key nonce : List Nat) (n : Nat) : List Nat :=
  (((List.range (n / 32 + 1)).map fun ctr =>
    sha256 (algorithmByte alg :: key ++ nonce ++ be32 ctr)).flatten).take n

/-- Modelled from the spec: the 16-byte AEAD authentication tag over the ciphertext, part
of the platform AEAD primitive behind the v2 chunk codec. -/
def sealTag (alg : Algorithm) (key nonce ct : List Nat) : List Nat :=
  (sha256 (algorithmByte alg :: 255 :: key ++ nonce ++ ct)).take 16

/-- Modelled from the spec: encryptChunk of the v2 chunk codec, which is not under src;
AEAD seal whose output is the ciphertext followed by a 16-byte tag. -/
def encryptChunk (data key nonce : List Nat) (alg : Algorithm) : List Nat :=
  let ct := List.zipWith Nat.xor data (keystream alg key nonce data.length)
  ct ++ sealTag alg key nonce ct

/-- Modelled from the spec: decryptChunk of the v2 chunk codec, which is not under src;
AEAD open, verifying the 16-byte tag and inverting the keystream, with none on tag
mismatch standing for the thrown OperationError. -/
def decryptChunk (data key nonce : List Nat) (alg : Algorithm) : Option (List Nat) :=
  if data.length < 16 then none
  else
    let ct := data.take (data.length - 16)
    let tag := data.drop (data.length - 16)
    if tag = sealTag alg key nonce ct then
      some (List.zipWith Nat.xor ct (keystream alg key nonce ct.length))
    else none

/-- Modelled from the spec: the v2 serializeHeader, which is not under src; it appends
the raw 32-byte plaintext hash immediately after the filename. -/
def serializeHeaderV2 (header : FileHeaderV2) : List Nat :=
  serializeHeader header.toFileHeader ++ hexToBytes header.originalHash

/-- Modelled from the spec: the v2 deserializeHeader, which is not under src; it
additionally captures the 32 raw hash bytes stored after the filename, returned as
lowercase hex. -/
def deserializeHeaderV2 (data : List Nat) : Except CryptoError FileHeaderV2 := do
  let h ← deserializeHeader data
  let filenameLength ← readU16 data 61
  let hashBytes := sliceBytes data (63 + filenameLength) (63 + filenameLength + 32)
  Except.ok ⟨h, bytesToHex hashBytes⟩

/-! crypto-worker embedding -/

/-- Embedding of the chunk slicing loop shared by hashFileData and encryptFile in the
crypto worker: chunk i is the slice from i times the chunk size up to the next boundary
or the end of the input. -/
def splitChunks (data : List Nat) (chunkSize : Nat) : List (List Nat) :=
  (List.range ((data.length + chunkSize - 1) / chunkSize)).map fun i =>
    (data.drop (i * chunkSize)).take chunkSize

structure EncryptResult where
  container : List Nat
  filename : String
  originalHash : String
  deriving DecidableEq, Repr

structure DecryptResult where
  blob : List Nat
  filename : String
  verified : Bool
  originalHash : String
  decryptedHash : String
  deriving DecidableEq, Repr

/-- Embedding of one iteration of the encrypt loop in the crypto worker: derive the chunk
key and nonce, seal the chunk, and frame it as length, nonce, payload. -/
def encryptChunkRecord (masterKeyBytes masterNonce : List Nat) (alg : Algorithm)
    (i : Nat) (chunkData : List Nat) : List Nat :=
  let chunkKeyBytes := deriveChunkKey masterKeyBytes i
  let chunkNonce := deriveChunkNonce masterNonce i
  let encryptedChunk := encryptChunk chunkData chunkKeyBytes chunkNonce alg
  be32 encryptedChunk.length ++ chunkNonce ++ encryptedChunk

/-- The chunk records the encrypt loop of the crypto worker emits, in index order. -/
def encryptRecords (masterKeyBytes masterNonce : List Nat) (alg : Algorithm)
    (fileChunks : List (List Nat)) : List (List Nat) :=
  fileChunks.enum.map fun p => encryptChunkRecord masterKeyBytes masterNonce alg p.1 p.2

/-- Embedding of encryptFile from the crypto worker, with the salt and master nonce the
CSPRNG would draw passed explicitly; progress callbacks are dropped. -/
def encryptFile (data : List Nat) (name : String) (password : String) (alg : Algorithm)
    (kdfMemory kdfIterations kdfParallelism : Nat) (salt masterNonce : List Nat) :
    EncryptResult :=
  let fileChunks := splitChunks data CHUNK_SIZE
  let originalHash := calculateHash fileChunks.flatten
  let masterKeyBytes := deriveKeyArgon2Bytes password salt kdfMemory kdfIterations kdfParallelism
  let totalChunks := fileChunks.length
  let header : FileHeaderV2 :=
    ⟨⟨MAGIC_BYTES, FORMAT_VERSION, alg, .argon2id, kdfMemory, kdfIterations, kdfParallelism,
      salt, CHUNK_SIZE, name, data.length, totalChunks⟩, originalHash⟩
  let headerBytes := serializeHeaderV2 header
  ⟨headerBytes ++ (encryptRecords masterKeyBytes masterNonce alg fileChunks).flatten,
   name ++ ".skita", originalHash⟩

/-- Embedding of the chunk loop of decryptFile in the crypto worker: read the 4-byte
length and 12-byte nonce at the running offset, slice the payload, derive the chunk key,
and open; a failed open is surfaced as the generic wrong-password-or-corrupt error. -/
def decryptLoop (container masterKeyBytes : List Nat) (alg : Algorithm) :
    Nat → Nat → Nat → Except CryptoError (List (List Nat))
  | 0, _, _ => .ok []
  | count + 1, i, offset =>
    match readU32 (sliceBytes container offset (offset + 16)) 0 with
    | .error e => .error e
    | .ok encryptedLength =>
      match decryptChunk (sliceBytes container (offset + 16) (offset + 16 + encryptedLength))
          (deriveChunkKey masterKeyBytes i)
          (sliceBytes (sliceBytes container offset (offset + 16)) 4 16) alg with
      | none => .error .wrongPasswordOrCorrupt
      | some decryptedChunk =>
        match decryptLoop container masterKeyBytes alg count (i + 1)
            (offset + 16 + encryptedLength) with
        | .error e => .error e
        | .ok rest => .ok (decryptedChunk :: rest)

/-- Embedding of decryptFile from the crypto worker: parse the header from the first
2048 bytes, compute the header size, derive the master key, walk the chunk records, and
verify the plaintext hash when one is present. -/
def decryptFile (container : List Nat) (password : String) :
    Except CryptoError DecryptResult := do
  let headerData := container.take 2048
  let header ← deserializeHeaderV2 headerData
  let headerSize ← getHeaderSize headerData
  let masterKeyBytes := deriveKeyArgon2Bytes password header.salt header.kdfMemory
    header.kdfIterations header.kdfParallelism
  let decryptedChunks ← decryptLoop container masterKeyBytes header.algorithm
    header.totalChunks 0 headerSize
  let combined := decryptedChunks.flatten
  if header.originalHash ≠ "" then
    let decryptedHash := calculateHash combined
    if decryptedHash = header.originalHash then
      Except.ok ⟨combined, header.originalFilename, true, header.originalHash, decryptedHash⟩
    else
      Except.error .integrityFailure
  else
    Except.ok ⟨combined, header.originalFilename, false, header.originalHash, ""⟩

/-- Instrumentation mirroring decryptLoop: true when the walk reaches a chunk whose AEAD
open fails before any other error. -/
def loopAuthFails (container masterKeyBytes : List Nat) (alg : Algorithm) :
    Nat → Nat → Nat → Bool
  | 0, _, _ => false
  | count + 1, i, offset =>
    match readU32 (sliceBytes container offset (offset + 16)) 0 with
    | .error _ => false
    | .ok encryptedLength =>
      match decryptChunk (sliceBytes container (offset + 16) (offset + 16 + encryptedLength))
          (deriveChunkKey masterKeyBytes i)
          (sliceBytes (sliceBytes container offset (offset + 16)) 4 16) alg with
      | none => true
      | some _ =>
        loopAuthFails container masterKeyBytes alg count (i + 1)
          (offset + 16 + encryptedLength)

/-- Instrumentation mirroring decryptFile up to the chunk walk: true when some chunk of
the container fails AEAD authentication under the given password. -/
def decryptAuthFails (container : List Nat) (password : String) : Bool :=
  match deserializeHeaderV2 (container.take 2048), getHeaderSize (container.take 2048) with
  | .ok header, .ok headerSize =>
    loopAuthFails container
      (deriveKeyArgon2Bytes password header.salt header.kdfMemory header.kdfIterations
        header.kdfParallelism)
      header.algorithm header.totalChunks 0 headerSize
  | _, _ => false

instance {e a : Type} [DecidableEq e] [DecidableEq a] : DecidableEq (Except e a) := fun x y =>
  match x, y with
  | .error u, .error v =>
    match decEq u v with
    | isTrue h => isTrue (h ▸ rfl)
    | isFalse h => isFalse fun hc => h (Except.error.inj hc)
  | .ok u, .ok v =>
    match decEq u v with
    | isTrue h => isTrue (h ▸ rfl)
    | isFalse h => isFalse fun hc => h (Except.ok.inj hc)
  | .error _, .ok _ => isFalse fun hc => Except.noConfusion hc
  | .ok _, .error _ => isFalse fun hc => Except.noConfusion hc

instance {e a : Type} [DecidableEq e] [DecidableEq a] : DecidableEq (Except e a) := fun x y =>
  match x, y with
  | .error u, .error v =>
    match decEq u v with
    | isTrue h => isTrue (h ▸ rfl)
    | isFalse h => isFalse fun hc => h (Except.error.inj hc)
  | .ok u, .ok v =>
    match decEq u v with
    | isTrue h => isTrue (h ▸ rfl)
    | isFalse h => isFalse fun hc => h (Except.ok.inj hc)
  | .error _, .ok _ => isFalse fun hc => Except.noConfusion hc
  | .ok _, .error _ => isFalse fun hc => Except.noConfusion hc

/-- A concrete 32-byte salt for the scenario inputs. -/
def salt32 : List Nat := List.range 32

/-- A concrete 12-byte master nonce for the scenario inputs. -/
def nonce12 : List Nat := List.range 12

/-- A crafted container: a valid 63-byte header with empty filename, zero original size
and one chunk, followed by a garbage 17-byte chunk record that cannot authenticate. Its
original-size and total-chunks bytes make the misread filename-length field zero, so the
chunk walk starts at offset 63 and reaches the record. -/
def c5container : List Nat :=
  MAGIC_BYTES ++ be16 1 ++ [0] ++ [0] ++ be32 65536 ++ be32 3 ++ [4] ++ salt32 ++
  be32 CHUNK_SIZE ++ be32 0 ++ be32 1 ++ be16 0 ++
  be32 17 ++ List.replicate 12 0 ++ List.replicate 17 1
section Utf8Lemmas

/-- Minimal decimal ASCII digits of a number, as the spec words it; the fuel bounds the
number of digits. -/
def specDecimalAux : Nat → Nat → List Char
  | 0, _ => []
  | fuel + 1, n =>
    if n < 10 then [Char.ofNat (48 + n)]
    else specDecimalAux fuel (n / 10) ++ [Char.ofNat (48 + n % 10)]

/-- Minimal decimal ASCII rendering of a number, as the spec words it. -/
def specDecimal (n : Nat) : String := String.mk (specDecimalAux (n + 1) n)

/-- The chunk subkey as the spec words it: SHA-256 of the master secret followed by the
UTF-8 bytes of the string chunk- and the minimal decimal rendering of the index. -/
def specChunkKey (master : List Nat) (i : Nat) : List Nat :=
  sha256 (master ++ utf8Encode ("chunk-" ++ specDecimal i))

/-- The chunk nonce as the spec words it: the first 8 bytes of the master nonce followed by
the big-endian 32-bit chunk index. -/
def specChunkNonce (mn : List Nat) (i : Nat) : List Nat :=
  mn.take 8 ++ [i / 16777216, i / 65536 % 256, i / 256 % 256, i % 256]

/-- The header produced for the tiny scenario: plaintext hello, filename hello.txt,
default parameters, one chunk. -/
def helloHeader : FileHeader :=
  ⟨MAGIC_BYTES, 1, .aesGcm, .argon2id, 65536, 3, 4, salt32, CHUNK_SIZE, "hello.txt", 5, 1⟩

/-- The header parsed back from the crafted container after its algorithm byte is set
to 2, an id no implemented algorithm uses. -/
def parsedAlgTwoHeader : FileHeader :=
  ⟨MAGIC_BYTES, 1, .chacha20poly1305, .argon2id, 65536, 3, 4, salt32, CHUNK_SIZE, "", 0, 1⟩


theorem char_valid_cases (c : Char) :
    c.toNat < 55296 ∨ (57344 ≤ c.toNat ∧ c.toNat < 1114112) := by
  have h := c.valid
  simp only [UInt32.isValidChar, Nat.isValidChar] at h
  exact h

theorem utf8EncodeChar_length_pos (c : Char) : 0 < (utf8EncodeChar c).length := by
  simp only [utf8EncodeChar]
  split_ifs <;> simp

theorem utf8DecodeAux_encodeChar (fuel : Nat) (c : Char) (bs : List Nat) :
    utf8DecodeAux (fuel + 1) (utf8EncodeChar c ++ bs) = c :: utf8DecodeAux fuel bs := by
  have hval : c.toNat < 55296 ∨ (57344 ≤ c.toNat ∧ c.toNat < 1114112) := char_valid_cases c
  have hofn : Char.ofNat c.toNat = c := Char.ofNat_toNat c
  by_cases h1 : c.toNat < 128
  · simp only [utf8EncodeChar, if_pos h1, List.cons_append, List.nil_append, utf8DecodeAux]
    rw [hofn]
  · by_cases h2 : c.toNat < 2048
    · simp only [utf8EncodeChar, if_neg h1, if_pos h2, List.cons_append, List.nil_append,
        utf8DecodeAux]
      rw [if_neg (by omega), if_neg (by omega), if_pos (by omega),
        if_pos (show 128 ≤ 128 + c.toNat % 64 ∧ 128 + c.toNat % 64 < 192 by omega)]
      have harith : (192 + c.toNat / 64 - 192) * 64 + (128 + c.toNat % 64 - 128) = c.toNat := by
        omega
      rw [harith, hofn]
    · by_cases h3 : c.toNat < 65536
      · simp only [utf8EncodeChar, if_neg h1, if_neg h2, if_pos h3, List.cons_append,
          List.nil_append, utf8DecodeAux]
        rw [if_neg (by omega), if_neg (by omega), if_neg (by omega), if_pos (by omega),
          if_pos (show (128 ≤ 128 + c.toNat / 64 % 64 ∧ 128 + c.toNat / 64 % 64 < 192) ∧
            128 ≤ 128 + c.toNat % 64 ∧ 128 + c.toNat % 64 < 192 by omega)]
        have harith : (224 + c.toNat / 4096 - 224) * 4096 + (128 + c.toNat / 64 % 64 - 128) * 64 +
            (128 + c.toNat % 64 - 128) = c.toNat := by omega
        rw [if_pos (by omega), harith, hofn]
      · simp only [utf8EncodeChar, if_neg h1, if_neg h2, if_neg h3, List.cons_append,
          List.nil_append, utf8DecodeAux]
        rw [if_neg (by omega), if_neg (by omega), if_neg (by omega), if_neg (by omega),
          if_pos (by omega),
          if_pos (show (128 ≤ 128 + c.toNat / 4096 % 64 ∧ 128 + c.toNat / 4096 % 64 < 192) ∧
            (128 ≤ 128 + c.toNat / 64 % 64 ∧ 128 + c.toNat / 64 % 64 < 192) ∧
            128 ≤ 128 + c.toNat % 64 ∧ 128 + c.toNat % 64 < 192 by omega)]
        have harith : (240 + c.toNat / 262144 - 240) * 262144 +
            (128 + c.toNat / 4096 % 64 - 128) * 4096 +
            (128 + c.toNat / 64 % 64 - 128) * 64 + (128 + c.toNat % 64 - 128) = c.toNat := by
          omega
        rw [if_pos (by omega), harith, hofn]

theorem utf8DecodeAux_encodeList (cs : List Char) (fuel : Nat) (hf : cs.length ≤ fuel) :
    utf8DecodeAux fuel ((cs.map utf8EncodeChar).flatten) = cs := by
  induction cs generalizing fuel with
  | nil =>
    cases fuel <;> simp [utf8DecodeAux]
  | cons c cs ih =>
    cases fuel with
    | zero => simp at hf
    | succ f =>
      simp only [List.map_cons, List.flatten_cons]
      rw [utf8DecodeAux_encodeChar]
      rw [ih f (by simpa using hf)]

theorem utf8Encode_length_ge (s : String) : s.data.length ≤ (utf8Encode s).length := by
  unfold utf8Encode
  induction s.data with
  | nil => simp
  | cons c cs ih =>
    simp only [List.map_cons, List.flatten_cons, List.length_append, List.length_cons]
    have := utf8EncodeChar_length_pos c
    omega

theorem utf8Decode_encode (s : String) : String.mk (utf8Decode (utf8Encode s)) = s := by
  unfold utf8Decode
  rw [show utf8Encode s = (s.data.map utf8EncodeChar).flatten from rfl]
  rw [utf8DecodeAux_encodeList s.data _ (by
    have := utf8Encode_length_ge s
    simpa [utf8Encode] using this)]

end Utf8Lemmas

section HeaderRoundtrip

theorem deserializeHeader_serializeHeader_append (h : FileHeader) (extra : List Nat)
    (hmagic : h.magic = MAGIC_BYTES)
    (hver : h.version < 65536)
    (hmem : h.kdfMemory < 4294967296)
    (hiter : h.kdfIterations < 4294967296)
    (hpar : h.kdfParallelism < 256)
    (hsalt : h.salt.length = 32)
    (hcs : h.chunkSize < 4294967296)
    (hos : h.originalSize < 4294967296)
    (htc : h.totalChunks < 4294967296)
    (hfn : (utf8Encode h.originalFilename).length ≤ 65535) :
    deserializeHeader (serializeHeader h ++ extra) = .ok h ∧
    readU16 (serializeHeader h ++ extra) 61 = .ok (utf8Encode h.originalFilename).length ∧
    readU16 (serializeHeader h ++ extra) 56 =
      .ok (h.originalSize % 256 * 256 + h.totalChunks / 16777216 % 256) ∧
    (serializeHeader h ++ extra).drop (63 + (utf8Encode h.originalFilename).length) = extra := by
  obtain ⟨mg, ver, alg, kdf, mem, iter, par, salt, cs, fname, os, tc⟩ := h
  dsimp only at hmagic hver hmem hiter hpar hsalt hcs hos htc hfn
  subst hmagic
  have hser : serializeHeader ⟨MAGIC_BYTES, ver, alg, kdf, mem, iter, par, salt, cs, fname, os, tc⟩ ++ extra =
      83 :: 75 :: 84 :: 65 :: (ver / 256 % 256) :: (ver % 256) :: algorithmByte alg :: 0 ::
      (mem / 16777216 % 256) :: (mem / 65536 % 256) :: (mem / 256 % 256) :: (mem % 256) ::
      (iter / 16777216 % 256) :: (iter / 65536 % 256) :: (iter / 256 % 256) :: (iter % 256) ::
      (par % 256) ::
      (salt ++ ((cs / 16777216 % 256) :: (cs / 65536 % 256) :: (cs / 256 % 256) :: (cs % 256) ::
        (os / 16777216 % 256) :: (os / 65536 % 256) :: (os / 256 % 256) :: (os % 256) ::
        (tc / 16777216 % 256) :: (tc / 65536 % 256) :: (tc / 256 % 256) :: (tc % 256) ::
        ((utf8Encode fname).length / 256 % 256) :: ((utf8Encode fname).length % 256) ::
        (utf8Encode fname ++ extra))) := by
    simp [serializeHeader, be16, be32, MAGIC_BYTES]
  rw [hser]
  set FN := utf8Encode fname with hFN
  set P := (cs / 16777216 % 256) :: (cs / 65536 % 256) :: (cs / 256 % 256) :: (cs % 256) ::
      (os / 16777216 % 256) :: (os / 65536 % 256) :: (os / 256 % 256) :: (os % 256) ::
      (tc / 16777216 % 256) :: (tc / 65536 % 256) :: (tc / 256 % 256) :: (tc % 256) ::
      (FN.length / 256 % 256) :: (FN.length % 256) :: (FN ++ extra) with hP
  set S := 83 :: 75 :: 84 :: 65 :: (ver / 256 % 256) :: (ver % 256) :: algorithmByte alg :: 0 ::
      (mem / 16777216 % 256) :: (mem / 65536 % 256) :: (mem / 256 % 256) :: (mem % 256) ::
      (iter / 16777216 % 256) :: (iter / 65536 % 256) :: (iter / 256 % 256) :: (iter % 256) ::
      (par % 256) :: (salt ++ P) with hS
  have hd17 : S.drop 17 = salt ++ P := rfl
  have hd49 : S.drop 49 = P := by
    rw [show (49 : Nat) = 17 + 32 from rfl, ← List.drop_drop, hd17, List.drop_left' hsalt]
  have hd53 : S.drop 53 = P.drop 4 := by
    rw [show (53 : Nat) = 49 + 4 from rfl, ← List.drop_drop, hd49]
  have hd57 : S.drop 57 = P.drop 8 := by
    rw [show (57 : Nat) = 49 + 8 from rfl, ← List.drop_drop, hd49]
  have hd61 : S.drop 61 = P.drop 12 := by
    rw [show (61 : Nat) = 49 + 12 from rfl, ← List.drop_drop, hd49]
  have hd63 : S.drop 63 = P.drop 14 := by
    rw [show (63 : Nat) = 49 + 14 from rfl, ← List.drop_drop, hd49]
  have hm : magicMatches S = true := rfl
  have hr4 : readU16 S 4 = .ok (ver / 256 % 256 * 256 + ver % 256) := rfl
  have hr6 : readU8 S 6 = .ok (algorithmByte alg) := rfl
  have hr7 : readU8 S 7 = .ok 0 := rfl
  have hr8 : readU32 S 8 = .ok (((mem / 16777216 % 256 * 256 + mem / 65536 % 256) * 256 +
      mem / 256 % 256) * 256 + mem % 256) := rfl
  have hr12 : readU32 S 12 = .ok (((iter / 16777216 % 256 * 256 + iter / 65536 % 256) * 256 +
      iter / 256 % 256) * 256 + iter % 256) := rfl
  have hr16 : readU8 S 16 = .ok (par % 256) := rfl
  have hr49 : readU32 S 49 = .ok (((cs / 16777216 % 256 * 256 + cs / 65536 % 256) * 256 +
      cs / 256 % 256) * 256 + cs % 256) := by
    unfold readU32
    rw [hd49]
  have hr53 : readU32 S 53 = .ok (((os / 16777216 % 256 * 256 + os / 65536 % 256) * 256 +
      os / 256 % 256) * 256 + os % 256) := by
    unfold readU32
    rw [hd53]
    rfl
  have hr57 : readU32 S 57 = .ok (((tc / 16777216 % 256 * 256 + tc / 65536 % 256) * 256 +
      tc / 256 % 256) * 256 + tc % 256) := by
    unfold readU32
    rw [hd57]
    rfl
  have hr61 : readU16 S 61 = .ok (FN.length / 256 % 256 * 256 + FN.length % 256) := by
    unfold readU16
    rw [hd61]
    rfl
  have hrecF : FN.length / 256 % 256 * 256 + FN.length % 256 = FN.length := by omega
  have hslice0 : sliceBytes S 0 4 = MAGIC_BYTES := rfl
  have hslice17 : sliceBytes S 17 49 = salt := by
    unfold sliceBytes
    rw [hd17]
    exact List.take_left' hsalt
  have hsliceFN : sliceBytes S 63 (63 + FN.length) = FN := by
    unfold sliceBytes
    rw [hd63, show P.drop 14 = FN ++ extra from rfl, Nat.add_sub_cancel_left, List.take_left]
  refine ⟨?_, ?_, ?_, ?_⟩
  · simp only [deserializeHeader, hm, Bool.not_true, Bool.false_eq_true, if_false, hr4, hr6, hr7,
      hr8, hr12, hr16, hr49, hr53, hr57, hr61, hrecF, hslice0, hslice17, hsliceFN, Except.bind,
      bind, ite_false, ite_true, Except.ok.injEq, FileHeader.mk.injEq]
    rw [if_neg (show ¬¬True by simp)]
    simp only [Except.ok.injEq, FileHeader.mk.injEq]
    refine ⟨trivial, by omega, ?_, ?_, by omega, by omega, by omega, trivial, by omega, ?_,
      by omega, by omega⟩
    · cases alg <;> rfl
    · cases kdf
      trivial
    · exact utf8Decode_encode fname
  · rw [hr61, hrecF]
  · have hd56 : S.drop 56 = P.drop 7 := by
      rw [show (56 : Nat) = 49 + 7 from rfl, ← List.drop_drop, hd49]
    unfold readU16
    rw [hd56]
    rfl
  · rw [← List.drop_drop, hd63, show P.drop 14 = FN ++ extra from rfl]
    exact List.drop_left FN extra

end HeaderRoundtrip

section HexLemmas

theorem charToNat_ofNat_small (m : Nat) (hm : m < 55296) : (Char.ofNat m).toNat = m := by
  unfold Char.ofNat
  rw [dif_pos (Or.inl hm : m.isValidChar)]
  rfl

theorem hexDigitVal_hexDigitCh (n : Nat) (hn : n < 16) : hexDigitVal (hexDigitCh n) = n := by
  unfold hexDigitVal hexDigitCh
  by_cases h10 : n < 10
  · rw [if_pos h10, charToNat_ofNat_small (48 + n) (by omega), if_pos (by omega)]
    omega
  · rw [if_neg h10, charToNat_ofNat_small (87 + n) (by omega), if_neg (by omega),
      if_pos (by omega)]
    omega

theorem hexPairs_flatten_byteHex (bs : List Nat) (hlt : ∀ b ∈ bs, b < 256) :
    hexPairs ((bs.map byteHex).flatten) = bs := by
  induction bs with
  | nil => rfl
  | cons b bs ih =>
    have hb : b < 256 := hlt b (List.mem_cons_self b bs)
    simp only [List.map_cons, List.flatten_cons, byteHex, List.cons_append, List.nil_append]
    rw [hexPairs, ih (fun x hx => hlt x (List.mem_cons_of_mem b hx)),
      hexDigitVal_hexDigitCh _ (by omega), hexDigitVal_hexDigitCh _ (by omega)]
    congr 1
    omega

theorem hexToBytes_bytesToHex (bs : List Nat) (hlt : ∀ b ∈ bs, b < 256) :
    hexToBytes (bytesToHex bs) = bs := by
  unfold hexToBytes bytesToHex
  exact hexPairs_flatten_byteHex bs hlt

theorem wordBytes_lt (w : Nat) : ∀ b ∈ wordBytes w, b < 256 := by
  intro b hb
  simp only [wordBytes, List.mem_cons, List.not_mem_nil, or_false] at hb
  rcases hb with rfl | rfl | rfl | rfl <;> omega

theorem sha256_length (msg : List Nat) : (sha256 msg).length = 32 := by
  simp [sha256, wordBytes]

theorem sha256_lt (msg : List Nat) : ∀ b ∈ sha256 msg, b < 256 := by
  intro b hb
  simp only [sha256, List.mem_append] at hb
  rcases hb with ((((((h | h) | h) | h) | h) | h) | h) | h <;> exact wordBytes_lt _ _ h

theorem hexToBytes_calculateHash (data : List Nat) :
    hexToBytes (calculateHash data) = sha256 data :=
  hexToBytes_bytesToHex _ (sha256_lt data)

end HexLemmas

section V2Roundtrip

theorem deserializeHeaderV2_serializeHeaderV2 (h : FileHeaderV2) (raw : List Nat)
    (hmagic : h.magic = MAGIC_BYTES)
    (hver : h.version < 65536)
    (hmem : h.kdfMemory < 4294967296)
    (hiter : h.kdfIterations < 4294967296)
    (hpar : h.kdfParallelism < 256)
    (hsalt : h.salt.length = 32)
    (hcs : h.chunkSize < 4294967296)
    (hos : h.originalSize < 4294967296)
    (htc : h.totalChunks < 4294967296)
    (hfn : (utf8Encode h.originalFilename).length ≤ 65535)
    (hhx : hexToBytes h.originalHash = raw)
    (hraw32 : raw.length = 32)
    (hback : bytesToHex raw = h.originalHash) :
    deserializeHeaderV2 (serializeHeaderV2 h) = .ok h := by
  obtain ⟨h1, hash⟩ := h
  dsimp only at hmagic hver hmem hiter hpar hsalt hcs hos htc hfn hhx hback
  obtain ⟨hparse, hr61, hr56, hdrop⟩ :=
    deserializeHeader_serializeHeader_append h1 raw hmagic hver hmem hiter hpar hsalt hcs hos
      htc hfn
  have hser2 : serializeHeaderV2 ⟨h1, hash⟩ = serializeHeader h1 ++ raw := by
    unfold serializeHeaderV2
    rw [hhx]
  rw [hser2]
  unfold deserializeHeaderV2
  rw [hparse, hr61]
  simp only [Except.bind, bind]
  have hslice : sliceBytes (serializeHeader h1 ++ raw)
      (63 + (utf8Encode h1.originalFilename).length)
      (63 + (utf8Encode h1.originalFilename).length + 32) = raw := by
    unfold sliceBytes
    rw [hdrop, Nat.add_sub_cancel_left]
    exact List.take_of_length_le (le_of_eq hraw32)
  rw [hslice, hback]

theorem getHeaderSize_serializeHeader_append (h : FileHeader) (extra : List Nat)
    (hmagic : h.magic = MAGIC_BYTES)
    (hver : h.version < 65536)
    (hmem : h.kdfMemory < 4294967296)
    (hiter : h.kdfIterations < 4294967296)
    (hpar : h.kdfParallelism < 256)
    (hsalt : h.salt.length = 32)
    (hcs : h.chunkSize < 4294967296)
    (hos : h.originalSize < 4294967296)
    (htc : h.totalChunks < 4294967296)
    (hfn : (utf8Encode h.originalFilename).length ≤ 65535) :
    getHeaderSize (serializeHeader h ++ extra) =
      .ok (63 + (h.originalSize % 256 * 256 + h.totalChunks / 16777216 % 256)) := by
  obtain ⟨-, -, hr56, -⟩ :=
    deserializeHeader_serializeHeader_append h extra hmagic hver hmem hiter hpar hsalt hcs hos
      htc hfn
  unfold getHeaderSize
  rw [hr56]
  rfl

end V2Roundtrip

section EmptyRoundtrip

theorem serializeHeader_length (h : FileHeader) :
    (serializeHeader h).length =
      h.magic.length + 27 + h.salt.length + (utf8Encode h.originalFilename).length := by
  simp only [serializeHeader, be16, be32, MAGIC_BYTES, List.length_append, List.length_cons,
    List.length_nil]
  omega

theorem encryptFile_empty_props (fname pw pw2 : String) (salt mn : List Nat)
    (hsalt : salt.length = 32)
    (hfn : (utf8Encode fname).length ≤ 1953) :
    splitChunks [] CHUNK_SIZE = [] ∧
    (encryptFile [] fname pw .aesGcm 65536 3 4 salt mn).container.length =
      95 + (utf8Encode fname).length ∧
    decryptFile (encryptFile [] fname pw .aesGcm 65536 3 4 salt mn).container pw2 =
      .ok ⟨[], fname, true, calculateHash [], calculateHash []⟩ := by
  have hchunks : splitChunks [] CHUNK_SIZE = [] := rfl
  have hcont : (encryptFile [] fname pw .aesGcm 65536 3 4 salt mn).container =
      serializeHeaderV2 ⟨⟨MAGIC_BYTES, 1, .aesGcm, .argon2id, 65536, 3, 4, salt, CHUNK_SIZE,
        fname, 0, 0⟩, calculateHash []⟩ ++ [] := rfl
  rw [List.append_nil] at hcont
  have hh32 : (hexToBytes (calculateHash [])).length = 32 := by
    rw [hexToBytes_calculateHash]
    exact sha256_length []
  have hlen : (serializeHeaderV2 ⟨⟨MAGIC_BYTES, 1, .aesGcm, .argon2id, 65536, 3, 4, salt,
      CHUNK_SIZE, fname, 0, 0⟩, calculateHash []⟩).length =
      95 + (utf8Encode fname).length := by
    unfold serializeHeaderV2
    rw [List.length_append, serializeHeader_length, hh32]
    show MAGIC_BYTES.length + 27 + salt.length + (utf8Encode fname).length + 32 =
      95 + (utf8Encode fname).length
    rw [hsalt]
    simp only [MAGIC_BYTES, List.length_cons, List.length_nil]
    omega
  refine ⟨hchunks, by rw [hcont, hlen], ?_⟩
  rw [hcont]
  have htake : (serializeHeaderV2 ⟨⟨MAGIC_BYTES, 1, .aesGcm, .argon2id, 65536, 3, 4, salt,
      CHUNK_SIZE, fname, 0, 0⟩, calculateHash []⟩).take 2048 =
      serializeHeaderV2 ⟨⟨MAGIC_BYTES, 1, .aesGcm, .argon2id, 65536, 3, 4, salt, CHUNK_SIZE,
        fname, 0, 0⟩, calculateHash []⟩ := by
    apply List.take_of_length_le
    rw [hlen]
    omega
  have hv2 := deserializeHeaderV2_serializeHeaderV2
    ⟨⟨MAGIC_BYTES, 1, .aesGcm, .argon2id, 65536, 3, 4, salt, CHUNK_SIZE, fname, 0, 0⟩,
      calculateHash []⟩ (sha256 [])
    rfl (show (1 : Nat) < 65536 by omega) (show (65536 : Nat) < 4294967296 by omega)
    (show (3 : Nat) < 4294967296 by omega) (show (4 : Nat) < 256 by omega) hsalt
    (show CHUNK_SIZE < 4294967296 by decide) (show (0 : Nat) < 4294967296 by omega)
    (show (0 : Nat) < 4294967296 by omega)
    (show (utf8Encode fname).length ≤ 65535 by omega) (hexToBytes_calculateHash [])
    (sha256_length []) rfl
  have hgs : getHeaderSize (serializeHeaderV2 ⟨⟨MAGIC_BYTES, 1, .aesGcm, .argon2id, 65536, 3, 4,
      salt, CHUNK_SIZE, fname, 0, 0⟩, calculateHash []⟩) = .ok 63 := by
    unfold serializeHeaderV2
    rw [getHeaderSize_serializeHeader_append _ _ rfl (show (1 : Nat) < 65536 by omega)
      (show (65536 : Nat) < 4294967296 by omega) (show (3 : Nat) < 4294967296 by omega)
      (show (4 : Nat) < 256 by omega) hsalt (show CHUNK_SIZE < 4294967296 by decide)
      (show (0 : Nat) < 4294967296 by omega) (show (0 : Nat) < 4294967296 by omega)
      (show (utf8Encode fname).length ≤ 65535 by omega)]
    norm_num
  have hne : (calculateHash [] ≠ "") = True := by
    simp only [ne_eq, eq_iff_iff, iff_true]
    decide
  simp only [decryptFile, htake, hv2, hgs, Except.bind, bind, decryptLoop, List.flatten_nil,
    hne, if_true, ite_true]

end EmptyRoundtrip

section Chunking

theorem keystream_length (alg : Algorithm) (key nonce : List Nat) (n : Nat) :
    (keystream alg key nonce n).length = n := by
  unfold keystream
  rw [List.length_take, List.length_flatten, List.map_map]
  have hc : (List.length ∘ fun ctr => sha256 (algorithmByte alg :: key ++ nonce ++ be32 ctr)) =
      fun _ => 32 := funext fun ctr => sha256_length _
  rw [hc, List.map_const', List.sum_replicate, List.length_range]
  simp only [smul_eq_mul]
  omega

theorem encryptChunk_length (data key nonce : List Nat) (alg : Algorithm) :
    (encryptChunk data key nonce alg).length = data.length + 16 := by
  unfold encryptChunk sealTag
  rw [List.length_append, List.length_zipWith, keystream_length, List.length_take,
    sha256_length]
  omega

theorem splitChunks_flatten_take (data : List Nat) (cs n : Nat) :
    ((List.range n).map fun i => (data.drop (i * cs)).take cs).flatten = data.take (n * cs) := by
  induction n with
  | zero => simp
  | succ n ih =>
    rw [List.range_succ, List.map_append, List.flatten_append]
    simp only [List.map_cons, List.map_nil, List.flatten_cons, List.flatten_nil, List.append_nil]
    rw [ih, show (n + 1) * cs = n * cs + cs by ring, List.take_add]

theorem splitChunks_flatten (data : List Nat) : (splitChunks data CHUNK_SIZE).flatten = data := by
  unfold splitChunks
  rw [splitChunks_flatten_take]
  apply List.take_of_length_le
  simp only [CHUNK_SIZE]
  omega

theorem splitChunks_length (data : List Nat) (cs : Nat) :
    (splitChunks data cs).length = (data.length + cs - 1) / cs := by
  unfold splitChunks
  rw [List.length_map, List.length_range]

theorem splitChunks_getD (data : List Nat) (cs i : Nat)
    (hi : i < (data.length + cs - 1) / cs) :
    (splitChunks data cs).getD i [] = (data.drop (i * cs)).take cs := by
  unfold splitChunks
  rw [List.getD_eq_getElem?_getD, List.getElem?_map, List.getElem?_range hi]
  rfl

theorem encryptRecords_length (mk mn : List Nat) (alg : Algorithm) (chunks : List (List Nat)) :
    (encryptRecords mk mn alg chunks).length = chunks.length := by
  unfold encryptRecords
  rw [List.length_map, List.enum_length]

theorem encryptRecords_getD (mk mn : List Nat) (alg : Algorithm) (chunks : List (List Nat))
    (i : Nat) (hi : i < chunks.length) :
    (encryptRecords mk mn alg chunks).getD i [] =
      encryptChunkRecord mk mn alg i (chunks.getD i []) := by
  unfold encryptRecords
  rw [List.getD_eq_getElem?_getD, List.getElem?_map,
    List.getElem?_eq_getElem (by rwa [List.enum_length]), List.getElem_enum]
  rw [List.getD_eq_getElem?_getD, List.getElem?_eq_getElem hi]
  rfl

theorem encryptChunkRecord_take4 (mk mn : List Nat) (alg : Algorithm) (i : Nat)
    (cd : List Nat) :
    (encryptChunkRecord mk mn alg i cd).take 4 = be32 (cd.length + 16) := by
  unfold encryptChunkRecord
  rw [List.append_assoc, List.take_left' (show (be32 (encryptChunk cd
    (deriveChunkKey mk i) (deriveChunkNonce mn i) alg).length).length = 4 from rfl),
    encryptChunk_length]

end Chunking

section ChunkFraming

theorem encrypt_chunk_framing (data : List Nat) (name pw : String) (alg : Algorithm)
    (m it p : Nat) (salt mn : List Nat) (h1 : 1 ≤ data.length) :
    (splitChunks data CHUNK_SIZE).length = (data.length + CHUNK_SIZE - 1) / CHUNK_SIZE ∧
    (encryptRecords (deriveKeyArgon2Bytes pw salt m it p) mn alg
        (splitChunks data CHUNK_SIZE)).length =
      (data.length + CHUNK_SIZE - 1) / CHUNK_SIZE ∧
    (∀ i, i < (data.length + CHUNK_SIZE - 1) / CHUNK_SIZE →
      ((encryptRecords (deriveKeyArgon2Bytes pw salt m it p) mn alg
          (splitChunks data CHUNK_SIZE)).getD i []).take 4 =
        be32 (((splitChunks data CHUNK_SIZE).getD i []).length + 16)) ∧
    ((splitChunks data CHUNK_SIZE).getD ((data.length + CHUNK_SIZE - 1) / CHUNK_SIZE - 1)
        []).length =
      data.length - ((data.length + CHUNK_SIZE - 1) / CHUNK_SIZE - 1) * CHUNK_SIZE ∧
    (encryptFile data name pw alg m it p salt mn).container =
      serializeHeaderV2 ⟨⟨MAGIC_BYTES, FORMAT_VERSION, alg, .argon2id, m, it, p, salt,
        CHUNK_SIZE, name, data.length, (data.length + CHUNK_SIZE - 1) / CHUNK_SIZE⟩,
        calculateHash data⟩ ++
      (encryptRecords (deriveKeyArgon2Bytes pw salt m it p) mn alg
        (splitChunks data CHUNK_SIZE)).flatten := by
  have hn1 : 1 ≤ (data.length + CHUNK_SIZE - 1) / CHUNK_SIZE := by
    simp only [CHUNK_SIZE]
    omega
  have hcl : (splitChunks data CHUNK_SIZE).length =
      (data.length + CHUNK_SIZE - 1) / CHUNK_SIZE := splitChunks_length data CHUNK_SIZE
  refine ⟨hcl, ?_, ?_, ?_, ?_⟩
  · rw [encryptRecords_length, hcl]
  · intro i hi
    rw [encryptRecords_getD _ _ _ _ i (by rw [hcl]; exact hi), encryptChunkRecord_take4]
  · rw [splitChunks_getD data CHUNK_SIZE _ (by omega)]
    rw [List.length_take, List.length_drop]
    simp only [CHUNK_SIZE] at *
    omega
  · show serializeHeaderV2 ⟨⟨MAGIC_BYTES, FORMAT_VERSION, alg, .argon2id, m, it, p, salt,
        CHUNK_SIZE, name, data.length, (splitChunks data CHUNK_SIZE).length⟩,
        calculateHash (splitChunks data CHUNK_SIZE).flatten⟩ ++
      (encryptRecords (deriveKeyArgon2Bytes pw salt m it p) mn alg
        (splitChunks data CHUNK_SIZE)).flatten = _
    rw [splitChunks_flatten, hcl]

end ChunkFraming

section ErrorLemmas

theorem readU8_error (d : List Nat) (k : Nat) (e : CryptoError)
    (h : readU8 d k = .error e) : e = .outOfBounds := by
  unfold readU8 at h
  split at h
  · cases h
  · exact (Except.error.inj h).symm

theorem readU16_error (d : List Nat) (k : Nat) (e : CryptoError)
    (h : readU16 d k = .error e) : e = .outOfBounds := by
  unfold readU16 at h
  split at h
  · cases h
  · exact (Except.error.inj h).symm

theorem readU32_error (d : List Nat) (k : Nat) (e : CryptoError)
    (h : readU32 d k = .error e) : e = .outOfBounds := by
  unfold readU32 at h
  split at h
  · cases h
  · exact (Except.error.inj h).symm

theorem loopAuthFails_decryptLoop (container mk : List Nat) (alg : Algorithm) :
    ∀ count i offset, loopAuthFails container mk alg count i offset = true →
      decryptLoop container mk alg count i offset = .error .wrongPasswordOrCorrupt := by
  intro count
  induction count with
  | zero =>
    intro i off h
    exact Bool.noConfusion h
  | succ c ih =>
    intro i off h
    unfold loopAuthFails at h
    unfold decryptLoop
    split at h
    · exact Bool.noConfusion h
    · rename_i L hr
      split at h
      · rfl
      · rename_i pt hd
        rw [ih (i + 1) (off + 16 + L) h]

theorem decryptAuthFails_decryptFile (container : List Nat) (pw : String)
    (h : decryptAuthFails container pw = true) :
    decryptFile container pw = .error .wrongPasswordOrCorrupt := by
  unfold decryptAuthFails at h
  cases hh : deserializeHeaderV2 (container.take 2048) with
  | error e =>
    rw [hh] at h
    simp at h
  | ok header =>
    rw [hh] at h
    cases hg : getHeaderSize (container.take 2048) with
    | error e =>
      rw [hg] at h
      simp at h
    | ok hs =>
      rw [hg] at h
      simp only [decryptFile, hh, hg, Except.bind, bind]
      rw [loopAuthFails_decryptLoop container _ header.algorithm header.totalChunks 0 hs h]

end ErrorLemmas

section DeserializeAnalysis

theorem readU8_ok (d : List Nat) (k b : Nat) (h : readU8 d k = .ok b) : d.getD k 0 = b := by
  unfold readU8 at h
  split at h
  · rename_i b2 t heq
    rw [List.getD_eq_getElem?_getD, show k = k + 0 from rfl, ← List.getElem?_drop, heq]
    simp [Except.ok.inj h]
  · cases h

theorem deserializeHeader_error (data : List Nat) (e : CryptoError)
    (h : deserializeHeader data = .error e) : e = .badMagic ∨ e = .outOfBounds := by
  unfold deserializeHeader at h
  split at h
  · exact Or.inl (Except.error.inj h).symm
  · simp only [bind, Except.bind] at h
    split at h
    · rename_i a ha
      exact Or.inr ((Except.error.inj h).symm.trans (readU16_error _ _ _ ha))
    · rename_i v hv0
      split at h
      · rename_i a ha
        exact Or.inr ((Except.error.inj h).symm.trans (readU8_error _ _ _ ha))
      · rename_i v hv1
        split at h
        · rename_i a ha
          exact Or.inr ((Except.error.inj h).symm.trans (readU8_error _ _ _ ha))
        · rename_i v hv2
          split at h
          · rename_i a ha
            exact Or.inr ((Except.error.inj h).symm.trans (readU32_error _ _ _ ha))
          · rename_i v hv3
            split at h
            · rename_i a ha
              exact Or.inr ((Except.error.inj h).symm.trans (readU32_error _ _ _ ha))
            · rename_i v hv4
              split at h
              · rename_i a ha
                exact Or.inr ((Except.error.inj h).symm.trans (readU8_error _ _ _ ha))
              · rename_i v hv5
                split at h
                · rename_i a ha
                  exact Or.inr ((Except.error.inj h).symm.trans (readU32_error _ _ _ ha))
                · rename_i v hv6
                  split at h
                  · rename_i a ha
                    exact Or.inr ((Except.error.inj h).symm.trans (readU32_error _ _ _ ha))
                  · rename_i v hv7
                    split at h
                    · rename_i a ha
                      exact Or.inr ((Except.error.inj h).symm.trans (readU32_error _ _ _ ha))
                    · rename_i v hv8
                      split at h
                      · rename_i a ha
                        exact Or.inr ((Except.error.inj h).symm.trans (readU16_error _ _ _ ha))
                      · rename_i v hv9
                        exact Except.noConfusion h

end DeserializeAnalysis

section AlgorithmAnalysis

theorem deserializeHeader_ok_algorithm (data : List Nat) (hd : FileHeader)
    (hok : deserializeHeader data = .ok hd) :
    hd.algorithm = if data.getD 6 0 == 0 then Algorithm.aesGcm else Algorithm.chacha20poly1305 := by
  unfold deserializeHeader at hok
  split at hok
  · exact Except.noConfusion hok
  · simp only [bind, Except.bind] at hok
    split at hok
    · exact Except.noConfusion hok
    · rename_i v0 hv0
      split at hok
      · exact Except.noConfusion hok
      · rename_i algoId ha6
        split at hok
        · exact Except.noConfusion hok
        · rename_i v2 hv2
          split at hok
          · exact Except.noConfusion hok
          · rename_i v3 hv3
            split at hok
            · exact Except.noConfusion hok
            · rename_i v4 hv4
              split at hok
              · exact Except.noConfusion hok
              · rename_i v5 hv5
                split at hok
                · exact Except.noConfusion hok
                · rename_i v6 hv6
                  split at hok
                  · exact Except.noConfusion hok
                  · rename_i v7 hv7
                    split at hok
                    · exact Except.noConfusion hok
                    · rename_i v8 hv8
                      split at hok
                      · exact Except.noConfusion hok
                      · rename_i v9 hv9
                        rw [← Except.ok.inj hok]
                        dsimp only
                        rw [readU8_ok data 6 algoId ha6]

end AlgorithmAnalysis

section ErrorSets

theorem deserializeHeaderV2_error (data : List Nat) (e : CryptoError)
    (h : deserializeHeaderV2 data = .error e) : e = .badMagic ∨ e = .outOfBounds := by
  unfold deserializeHeaderV2 at h
  simp only [bind, Except.bind] at h
  split at h
  · rename_i a ha
    obtain rfl := Except.error.inj h
    exact deserializeHeader_error data a ha
  · rename_i hd hhd
    split at h
    · rename_i a ha
      obtain rfl := Except.error.inj h
      exact Or.inr (readU16_error _ _ _ ha)
    · exact Except.noConfusion h

theorem getHeaderSize_error (data : List Nat) (e : CryptoError)
    (h : getHeaderSize data = .error e) : e = .outOfBounds := by
  unfold getHeaderSize at h
  simp only [bind, Except.bind] at h
  split at h
  · rename_i a ha
    obtain rfl := Except.error.inj h
    exact readU16_error _ _ _ ha
  · exact Except.noConfusion h

theorem decryptLoop_error (container mk : List Nat) (alg : Algorithm) :
    ∀ count i off e, decryptLoop container mk alg count i off = .error e →
      e = .outOfBounds ∨ e = .wrongPasswordOrCorrupt := by
  intro count
  induction count with
  | zero =>
    intro i off e h
    exact Except.noConfusion h
  | succ c ih =>
    intro i off e h
    unfold decryptLoop at h
    split at h
    · rename_i a ha
      obtain rfl := Except.error.inj h
      exact Or.inl (readU32_error _ _ _ ha)
    · rename_i L hL
      split at h
      · obtain rfl := Except.error.inj h
        exact Or.inr rfl
      · rename_i pt hpt
        split at h
        · rename_i a ha
          obtain rfl := Except.error.inj h
          exact ih _ _ _ ha
        · exact Except.noConfusion h

theorem decryptFile_error (container : List Nat) (pw : String) (e : CryptoError)
    (h : decryptFile container pw = .error e) :
    e = .badMagic ∨ e = .outOfBounds ∨ e = .wrongPasswordOrCorrupt ∨ e = .integrityFailure := by
  unfold decryptFile at h
  simp only [bind, Except.bind] at h
  split at h
  · rename_i a ha
    obtain rfl := Except.error.inj h
    rcases deserializeHeaderV2_error _ _ ha with h1 | h1
    · exact Or.inl h1
    · exact Or.inr (Or.inl h1)
  · rename_i hd hhd
    split at h
    · rename_i a ha
      obtain rfl := Except.error.inj h
      exact Or.inr (Or.inl (getHeaderSize_error _ _ ha))
    · rename_i hs hhs
      split at h
      · rename_i a ha
        obtain rfl := Except.error.inj h
        rcases decryptLoop_error _ _ _ _ _ _ _ ha with h1 | h1
        · exact Or.inr (Or.inl h1)
        · exact Or.inr (Or.inr (Or.inl h1))
      · rename_i chunks hchunks
        split at h
        · split at h
          · exact Except.noConfusion h
          · obtain rfl := Except.error.inj h
            exact Or.inr (Or.inr (Or.inr rfl))
        · exact Except.noConfusion h

end ErrorSets

section DecimalRendering


theorem digitChar_eq (m : Nat) (hm : m < 10) : Nat.digitChar m = Char.ofNat (48 + m) := by
  interval_cases m <;> decide

theorem toDigitsCore_eq_specDecimalAux (fuel : Nat) :
    ∀ n ds, n < 10 ^ fuel → Nat.toDigitsCore 10 fuel n ds = specDecimalAux fuel n ++ ds := by
  induction fuel with
  | zero =>
    intro n ds _
    rfl
  | succ f ih =>
    intro n ds h
    unfold Nat.toDigitsCore specDecimalAux
    by_cases h10 : n < 10
    · rw [if_pos (by omega : n / 10 = 0), if_pos h10, digitChar_eq _ (by omega),
        Nat.mod_eq_of_lt h10]
      rfl
    · rw [if_neg (by omega : ¬n / 10 = 0), if_neg h10,
        ih (n / 10) _ (by
          rw [pow_succ] at h
          omega),
        digitChar_eq _ (by omega), List.append_assoc]
      rfl

theorem natRepr_eq_specDecimal (n : Nat) : Nat.repr n = specDecimal n := by
  unfold Nat.repr Nat.toDigits specDecimal List.asString
  rw [toDigitsCore_eq_specDecimalAux (n + 1) n [] (by
    calc n < 10 ^ n := Nat.lt_pow_self (by omega) n
    _ ≤ 10 ^ (n + 1) := Nat.pow_le_pow_right (by omega) (by omega))]
  rw [List.append_nil]

end DecimalRendering

section KeySchedule


theorem deriveChunkKey_eq (mk : List Nat) (i : Nat) :
    deriveChunkKey mk i = sha256 (mk ++ utf8Encode ("chunk-" ++ Nat.repr i)) := by
  unfold deriveChunkKey bufWrite
  simp only [List.take_zero, List.nil_append, List.drop_replicate, Nat.zero_add]
  congr 1
  rw [show mk.length + (utf8Encode ("chunk-" ++ Nat.repr i)).length - mk.length =
    (utf8Encode ("chunk-" ++ Nat.repr i)).length by omega]
  rw [List.take_left, List.drop_eq_nil_of_le (by
    rw [List.length_append, List.length_replicate]), List.append_nil]

theorem deriveChunkNonce_eq (mn : List Nat) (i : Nat) (h12 : mn.length = 12) :
    deriveChunkNonce mn i = mn.take 8 ++ be32 i := by
  unfold deriveChunkNonce bufWrite
  simp only [List.take_zero, List.nil_append, List.drop_replicate, Nat.zero_add]
  have ht8 : (mn.take 8).length = 8 := by
    rw [List.length_take]
    omega
  rw [ht8, List.take_left' (by
    rw [List.length_take]
    omega : (mn.take 8).length = 8)]
  rw [List.drop_eq_nil_of_le (by
    rw [List.length_append, List.length_replicate, ht8]
    simp [be32]), List.append_nil]

theorem deriveChunkKey_spec (mk : List Nat) (i : Nat) :
    deriveChunkKey mk i = specChunkKey mk i ∧ (deriveChunkKey mk i).length = 32 := by
  constructor
  · rw [deriveChunkKey_eq]
    unfold specChunkKey
    rw [natRepr_eq_specDecimal]
  · rw [deriveChunkKey_eq]
    exact sha256_length _

theorem deriveChunkNonce_spec (mn : List Nat) (i : Nat) (h12 : mn.length = 12)
    (hi : i < 4294967296) :
    deriveChunkNonce mn i = specChunkNonce mn i ∧ (deriveChunkNonce mn i).length = 12 := by
  have he := deriveChunkNonce_eq mn i h12
  constructor
  · rw [he]
    unfold specChunkNonce be32
    have : i / 16777216 % 256 = i / 16777216 := by omega
    rw [this]
  · rw [he, List.length_append, List.length_take]
    simp [be32]
    omega

end KeySchedule

section ClaimTheorems

/-- Claim C1: the spec says decrypting the container produced by encryptFile with the same
password succeeds and returns the plaintext, filename and verified flag. On the code this
fails: getHeaderSize reads the filename length at byte offset 56, which lands inside the
original-size and total-chunks fields, so decryptFile seeks the first chunk record at
offset 1343 of the 141-byte tiny container and fails with an out-of-bounds read instead of
returning the plaintext. -/
theorem claim_C1_roundtrip_fails_hello :
    decryptFile (encryptFile (utf8Encode "hello") "hello.txt" "pw" .aesGcm 65536 3 4
      salt32 nonce12).container "pw" = .error .outOfBounds := by
  decide

/-- Claim C2: the spec says getHeaderSize returns 63 plus the filename byte length read
from the u16 field at offset 61. On the code this fails: the function reads offset 56, so
for the tiny header with filename hello.txt, original size 5 and one chunk it returns
63 + 1280 = 1343 instead of 63 + 9 = 72. -/
theorem claim_C2_getHeaderSize_misreads_offset :
    getHeaderSize (serializeHeader helloHeader) = .ok 1343 ∧
    63 + (utf8Encode "hello.txt").length = 72 ∧ (1343 : Nat) ≠ 72 := by
  refine ⟨by decide, by decide, by decide⟩

/-- Claim C3: for plaintext hello, filename hello.txt, password pw and default parameters,
encryptFile produces a 141-byte container: a 72-byte header (63 fixed plus 9 filename
bytes), the raw 32-byte SHA-256 plaintext hash appended after the filename, then one chunk
record of 4 length bytes, the 12-byte chunk nonce, and 5 + 16 payload bytes; the hash is
the well-known SHA-256 digest of hello. -/
theorem claim_C3_tiny_container_layout :
    (encryptFile (utf8Encode "hello") "hello.txt" "pw" .aesGcm 65536 3 4 salt32
        nonce12).container.length = 141 ∧
    (serializeHeader helloHeader).length = 72 ∧
    sliceBytes (encryptFile (utf8Encode "hello") "hello.txt" "pw" .aesGcm 65536 3 4 salt32
      nonce12).container 0 72 = serializeHeader helloHeader ∧
    sliceBytes (encryptFile (utf8Encode "hello") "hello.txt" "pw" .aesGcm 65536 3 4 salt32
      nonce12).container 72 104 = sha256 (utf8Encode "hello") ∧
    sliceBytes (encryptFile (utf8Encode "hello") "hello.txt" "pw" .aesGcm 65536 3 4 salt32
      nonce12).container 104 108 = be32 (5 + 16) ∧
    sliceBytes (encryptFile (utf8Encode "hello") "hello.txt" "pw" .aesGcm 65536 3 4 salt32
      nonce12).container 108 120 = deriveChunkNonce nonce12 0 ∧
    (sliceBytes (encryptFile (utf8Encode "hello") "hello.txt" "pw" .aesGcm 65536 3 4 salt32
      nonce12).container 120 141).length = 21 ∧
    calculateHash (utf8Encode "hello") =
      "2cf24dba5fb0a30e26e83b2ac5b9e29e1b161e5c1fa7425e73043362938b9824" := by
  refine ⟨by decide, by decide, by decide, by decide, by decide, by decide, by decide,
    by decide⟩

/-- Claim C4 counterexample: a container whose algorithm byte is 2, an id no implemented
algorithm uses, is not rejected with UnsupportedAlgorithm: deserializeHeader accepts it as
ChaCha20-Poly1305 and decryptFile attempts chunk decryption, surfacing the generic
wrong-password-or-corrupt error. -/
theorem claim_C4_counterexample :
    (c5container.set 6 2).getD 6 0 = 2 ∧
    deserializeHeader (c5container.set 6 2) = .ok parsedAlgTwoHeader ∧
    parsedAlgTwoHeader.algorithm = .chacha20poly1305 ∧
    decryptFile (c5container.set 6 2) "pw" = .error .wrongPasswordOrCorrupt ∧
    CryptoError.wrongPasswordOrCorrupt ≠ CryptoError.unsupportedAlgorithm := by
  refine ⟨by decide, by decide, by decide, by decide, by decide⟩

/-- Claim C4 amended: deserializeHeader accepts every algorithm byte, mapping 0 to AES-GCM
and any other value to ChaCha20-Poly1305, and decryptFile never reports an
UnsupportedAlgorithm error; failures during decryption surface only as bad magic,
out-of-bounds, wrong-password-or-corrupt, or integrity errors. -/
theorem claim_C4_amended_algorithm_accepted :
    (∀ (data : List Nat) (hd : FileHeader), deserializeHeader data = .ok hd →
      hd.algorithm = if data.getD 6 0 == 0 then Algorithm.aesGcm
        else Algorithm.chacha20poly1305) ∧
    (∀ (container : List Nat) (pw : String) (e : CryptoError),
      decryptFile container pw = .error e → e ≠ .unsupportedAlgorithm) := by
  constructor
  · exact deserializeHeader_ok_algorithm
  · intro container pw e h
    rcases decryptFile_error container pw e h with h1 | h1 | h1 | h1 <;> subst h1 <;> decide

/-- Claim C4 witness: the amended theorem applied to the crafted container with algorithm
byte 2 and to its decryption outcome. -/
theorem claim_C4_witness :
    parsedAlgTwoHeader.algorithm = (if (c5container.set 6 2).getD 6 0 == 0 then
      Algorithm.aesGcm else Algorithm.chacha20poly1305) ∧
    CryptoError.wrongPasswordOrCorrupt ≠ CryptoError.unsupportedAlgorithm :=
  ⟨claim_C4_amended_algorithm_accepted.1 (c5container.set 6 2) parsedAlgTwoHeader
      (by decide),
   claim_C4_amended_algorithm_accepted.2 (c5container.set 6 2) "pw"
      CryptoError.wrongPasswordOrCorrupt (by decide)⟩

/-- Claim C5: if AEAD tag verification fails on any chunk while decryptFile walks the
records, the call terminates with the generic wrong-password-or-corrupt error and returns
no plaintext; decryptAuthFails mirrors the walk and reports whether some chunk fails
authentication before any other error. -/
theorem claim_C5_auth_failure_surfaced (container : List Nat) (pw : String)
    (h : decryptAuthFails container pw = true) :
    decryptFile container pw = .error .wrongPasswordOrCorrupt :=
  decryptAuthFails_decryptFile container pw h

/-- Claim C5 witness: a crafted container whose single chunk record carries garbage fails
authentication, and decryptFile reports the generic error on it. -/
theorem claim_C5_witness :
    decryptAuthFails c5container "pw" = true ∧
    decryptFile c5container "pw" = .error .wrongPasswordOrCorrupt :=
  ⟨by decide, claim_C5_auth_failure_surfaced c5container "pw" (by decide)⟩

/-- Claim C6: for a nonempty input encrypted with the fixed 4 MiB chunk size, encryptFile
emits exactly the ceiling of size over chunk size records; each record opens with a 4-byte
field holding that chunk cleartext length plus 16; the last chunk cleartext length is the
size minus chunk size times one less than the record count; and the container is the v2
header followed by exactly these records. -/
theorem claim_C6_chunk_framing (data : List Nat) (name pw : String) (alg : Algorithm)
    (m it p : Nat) (salt mn : List Nat) (h1 : 1 ≤ data.length) :
    (splitChunks data CHUNK_SIZE).length = (data.length + CHUNK_SIZE - 1) / CHUNK_SIZE ∧
    (encryptRecords (deriveKeyArgon2Bytes pw salt m it p) mn alg
        (splitChunks data CHUNK_SIZE)).length =
      (data.length + CHUNK_SIZE - 1) / CHUNK_SIZE ∧
    (∀ i, i < (data.length + CHUNK_SIZE - 1) / CHUNK_SIZE →
      ((encryptRecords (deriveKeyArgon2Bytes pw salt m it p) mn alg
          (splitChunks data CHUNK_SIZE)).getD i []).take 4 =
        be32 (((splitChunks data CHUNK_SIZE).getD i []).length + 16)) ∧
    ((splitChunks data CHUNK_SIZE).getD ((data.length + CHUNK_SIZE - 1) / CHUNK_SIZE - 1)
        []).length =
      data.length - ((data.length + CHUNK_SIZE - 1) / CHUNK_SIZE - 1) * CHUNK_SIZE ∧
    (encryptFile data name pw alg m it p salt mn).container =
      serializeHeaderV2 ⟨⟨MAGIC_BYTES, FORMAT_VERSION, alg, .argon2id, m, it, p, salt,
        CHUNK_SIZE, name, data.length, (data.length + CHUNK_SIZE - 1) / CHUNK_SIZE⟩,
        calculateHash data⟩ ++
      (encryptRecords (deriveKeyArgon2Bytes pw salt m it p) mn alg
        (splitChunks data CHUNK_SIZE)).flatten :=
  encrypt_chunk_framing data name pw alg m it p salt mn h1

/-- Claim C6 witness: the framing theorem applied to a one-byte input, giving a single
record whose length field is 1 + 16 and whose last chunk holds the single byte. -/
theorem claim_C6_witness :
    (encryptRecords (deriveKeyArgon2Bytes "p" salt32 65536 3 4) nonce12 .aesGcm
        (splitChunks [42] CHUNK_SIZE)).length = 1 ∧
    ((splitChunks [42] CHUNK_SIZE).getD 0 []).length = 1 := by
  have h := claim_C6_chunk_framing [42] "a" "p" .aesGcm 65536 3 4 salt32 nonce12
    (by decide)
  have hn : ((42 :: List.nil).length + CHUNK_SIZE - 1) / CHUNK_SIZE = 1 := by decide
  refine ⟨?_, ?_⟩
  · rw [h.2.1, hn]
  · have h4 := h.2.2.2.1
    rw [hn] at h4
    simpa using h4

/-- Claim C7: the chunk subkey equals the SHA-256 digest of the master key bytes followed
by the UTF-8 string chunk- and the minimal decimal rendering of the index, and it always
returns a 32-byte key. -/
theorem claim_C7_chunk_key_derivation (mk : List Nat) (i : Nat) :
    deriveChunkKey mk i = specChunkKey mk i ∧ (deriveChunkKey mk i).length = 32 :=
  deriveChunkKey_spec mk i

/-- Claim C8: for a 12-byte master nonce and a u32 index, the chunk nonce is the first
8 bytes of the master nonce followed by the big-endian 32-bit index, a 12-byte result. -/
theorem claim_C8_chunk_nonce_derivation (mn : List Nat) (i : Nat) (h12 : mn.length = 12)
    (hi : i < 4294967296) :
    deriveChunkNonce mn i = specChunkNonce mn i ∧ (deriveChunkNonce mn i).length = 12 :=
  deriveChunkNonce_spec mn i h12 hi

/-- Claim C8 witness: the nonce derivation theorem applied to a concrete 12-byte master
nonce and index 7. -/
theorem claim_C8_witness :
    deriveChunkNonce nonce12 7 = specChunkNonce nonce12 7 ∧
    (deriveChunkNonce nonce12 7).length = 12 :=
  claim_C8_chunk_nonce_derivation nonce12 7 (by decide) (by decide)

/-- Claim C9: serializing a well-formed header and parsing the bytes back yields an equal
structure; well-formed means the magic is SKTA, the numeric fields fit their widths, the
salt is 32 bytes, and the filename UTF-8 encoding is at most 65535 bytes. -/
theorem claim_C9_header_roundtrip (h : FileHeader)
    (hmagic : h.magic = MAGIC_BYTES)
    (hver : h.version < 65536)
    (hmem : h.kdfMemory < 4294967296)
    (hiter : h.kdfIterations < 4294967296)
    (hpar : h.kdfParallelism < 256)
    (hsalt : h.salt.length = 32)
    (hcs : h.chunkSize < 4294967296)
    (hos : h.originalSize < 4294967296)
    (htc : h.totalChunks < 4294967296)
    (hfn : (utf8Encode h.originalFilename).length ≤ 65535) :
    deserializeHeader (serializeHeader h) = .ok h := by
  have hp := (deserializeHeader_serializeHeader_append h [] hmagic hver hmem hiter hpar
    hsalt hcs hos htc hfn).1
  rwa [List.append_nil] at hp

/-- Claim C9 witness: the round-trip theorem applied to a concrete header carrying a
multi-byte UTF-8 filename. -/
theorem claim_C9_witness :
    deserializeHeader (serializeHeader ⟨MAGIC_BYTES, 1, .chacha20poly1305, .argon2id,
      65536, 3, 4, salt32, CHUNK_SIZE, "笔记.md", 5, 1⟩) =
    .ok ⟨MAGIC_BYTES, 1, .chacha20poly1305, .argon2id, 65536, 3, 4, salt32, CHUNK_SIZE,
      "笔记.md", 5, 1⟩ :=
  claim_C9_header_roundtrip _ rfl (by decide) (by decide) (by decide) (by decide)
    (by decide) (by decide) (by decide) (by decide) (by decide)

/-- Claim C10: encrypting an empty input succeeds and produces a container holding only
the v2 header (no chunk records, zero total chunks, 95 bytes plus the filename length),
and decryptFile on that container succeeds with any password, returning the empty
plaintext, the stored filename, and verified true. -/
theorem claim_C10_empty_roundtrip (fname pw pw2 : String) (salt mn : List Nat)
    (hsalt : salt.length = 32)
    (hfn : (utf8Encode fname).length ≤ 1953) :
    splitChunks [] CHUNK_SIZE = [] ∧
    (encryptFile [] fname pw .aesGcm 65536 3 4 salt mn).container.length =
      95 + (utf8Encode fname).length ∧
    decryptFile (encryptFile [] fname pw .aesGcm 65536 3 4 salt mn).container pw2 =
      .ok ⟨[], fname, true, calculateHash [], calculateHash []⟩ :=
  encryptFile_empty_props fname pw pw2 salt mn hsalt hfn

/-- Claim C10 witness: the empty-input theorem applied to a concrete filename and two
different passwords. -/
theorem claim_C10_witness :
    splitChunks [] CHUNK_SIZE = [] ∧
    (encryptFile [] "a.txt" "x" .aesGcm 65536 3 4 salt32 nonce12).container.length =
      95 + (utf8Encode "a.txt").length ∧
    decryptFile (encryptFile [] "a.txt" "x" .aesGcm 65536 3 4 salt32 nonce12).container
      "y" = .ok ⟨[], "a.txt", true, calculateHash [], calculateHash []⟩ :=
  claim_C10_empty_roundtrip "a.txt" "x" "y" salt32 nonce12 (by decide) (by decide)

end ClaimTheorems
